import Mathlib

/-!
Shallow embedding of the pinnstf2 sampling and training-loop engine
(`pinnstf2.data.TimeDomain`, `Interval`, `Mesh`, `PointCloud`,
`MeshSampler`, `InitialCondition`, `PeriodicBoundaryCondition`,
`PINNDataModule`, `PINNModule` loss assembly, and the `Trainer` loop).
The repository ships only the callers (a tutorial notebook and two YAML
configurations); the library classes themselves are modelled from the
specification, with coordinates and solution values embedded as rationals
and dictionaries as association lists.
-/

namespace PinnsTf2

/-- Modelled from the spec: the eager, fatal error taxonomy of §7(a) for
Mesh/Sampler construction (shape mismatches, duplicate/unknown solution
names, a name requested in both solution and collection_points). -/
inductive ConfigurationError where
  | shapeMismatch
  | overlappingNames
  | unknownSolution
  deriving DecidableEq

/-- Modelled from the spec: evenly spaced coordinate stamps over an interval,
used by TimeDomain (ordered sequence of N time stamps) and Interval (ordered
grid of spatial points). -/
def linspace (a b : ℚ) (n : ℕ) : List ℚ :=
  (List.range n).map (fun i : ℕ => a + (b - a) * i / (n - 1))

/-- Modelled from the spec: TimeDomain is missing from src; `{t_interval:
(t0,t1), t_points: N}` giving an ordered sequence of N time stamps. -/
structure TimeDomain where
  t0 : ℚ
  t1 : ℚ
  tPoints : ℕ

/-- The ordered time stamps of a TimeDomain. -/
def TimeDomain.timeStamps (td : TimeDomain) : List ℚ :=
  linspace td.t0 td.t1 td.tPoints

/-- Modelled from the spec: Interval (1-D spatial domain) is missing from
src; `{x_interval, shape [n,1]}` giving an ordered grid of n spatial
points. -/
structure Interval where
  x0 : ℚ
  x1 : ℚ
  nPoints : ℕ

/-- The ordered spatial points of an Interval. -/
def Interval.spatialPoints (sd : Interval) : List ℚ :=
  linspace sd.x0 sd.x1 sd.nPoints

/-- A solution dictionary: solution-variable name to 2-D array
(space-major rows, each row indexed by time). -/
abbrev SolutionData := List (String × List (List ℚ))

/-- The shape invariant of the spec: every solution array has
(num_spatial_points) rows each of length (num_time_points). -/
def shapeOk (data : SolutionData) (n t : ℕ) : Bool :=
  data.all (fun p => p.2.length == n && p.2.all (fun row => row.length == t))

/-- The full space-time grid: Cartesian product of spatial points and time
stamps, spatial-major, matching the space-major layout of solution arrays. -/
def gridPoints (spatial times : List ℚ) : List (ℚ × ℚ) :=
  spatial.flatMap (fun x => times.map (fun t => (x, t)))

/-- Coordinate-wise minimum over a point list (defaulting to 0 on the empty
list, which Mesh construction never produces for a nonempty grid). -/
def derivedLb (ps : List (ℚ × ℚ)) : ℚ × ℚ :=
  (((ps.map Prod.fst).min?).getD 0, ((ps.map Prod.snd).min?).getD 0)

/-- Coordinate-wise maximum over a point list. -/
def derivedUb (ps : List (ℚ × ℚ)) : ℚ × ℚ :=
  (((ps.map Prod.fst).max?).getD 0, ((ps.map Prod.snd).max?).getD 0)

/-- Modelled from the spec: the Mesh class is missing from src; it owns the
Cartesian grid of spatial points and time stamps, the loaded solution
dictionary, and the derived-or-overridden domain bound vectors. -/
structure Mesh where
  spatial : List ℚ
  times : List ℚ
  solution : SolutionData
  lb : ℚ × ℚ
  ub : ℚ × ℚ

/-- The full space-time grid of a Mesh. -/
def Mesh.grid (m : Mesh) : List (ℚ × ℚ) :=
  gridPoints m.spatial m.times

/-- The flattened (space-major) solution array for one name. -/
def Mesh.flatSol (m : Mesh) (name : String) : List ℚ :=
  ((m.solution.lookup name).getD []).flatten

/-- Modelled from the spec: Mesh construction is missing from src; it fails
iff the loaded arrays violate the shape invariant, and derives lb/ub as the
coordinate-wise min/max over the generated grid unless explicit values are
supplied, which are then accepted as given with no validation. -/
def Mesh.build (sd : Interval) (td : TimeDomain) (data : SolutionData)
    (lbO ubO : Option (ℚ × ℚ)) : Except ConfigurationError Mesh :=
  if shapeOk data sd.nPoints td.tPoints then
    let sp := sd.spatialPoints
    let ts := td.timeStamps
    let g := gridPoints sp ts
    .ok { spatial := sp, times := ts, solution := data,
          lb := lbO.getD (derivedLb g), ub := ubO.getD (derivedUb g) }
  else
    .error .shapeMismatch

/-- Modelled from the spec: one PointCloud block, a (spatial block, time
block, solution dict) triple with the same shape invariant as Mesh. -/
structure PCBlock where
  spatial : List ℚ
  times : List ℚ
  solution : SolutionData

/-- All space-time points of a list of PointCloud blocks combined. -/
def pcPoints (blocks : List PCBlock) : List (ℚ × ℚ) :=
  blocks.flatMap (fun b => gridPoints b.spatial b.times)

/-- Modelled from the spec: the PointCloud class is missing from src; it owns
a list of blocks and bound vectors derived over all blocks combined unless
explicitly overridden. -/
structure PointCloud where
  blocks : List PCBlock
  lb : ℚ × ℚ
  ub : ℚ × ℚ

/-- Modelled from the spec: PointCloud construction is missing from src; the
per-block shape invariant and the bound-derivation rule mirror Mesh. -/
def PointCloud.build (blocks : List PCBlock) (lbO ubO : Option (ℚ × ℚ)) :
    Except ConfigurationError PointCloud :=
  if blocks.all (fun b => shapeOk b.solution b.spatial.length b.times.length) then
    .ok { blocks := blocks,
          lb := lbO.getD (derivedLb (pcPoints blocks)),
          ub := ubO.getD (derivedUb (pcPoints blocks)) }
  else
    .error .shapeMismatch

/-- Modelled from the spec: the uniform-random index draw of the samplers,
made explicit as a deterministic linear-congruential stream over a seed; the
spec constrains only the count of drawn indices, not their distribution. -/
def sampleIndices (seed n total : ℕ) : List ℕ :=
  (List.range n).map (fun i => (1103515245 * (seed + i) + 12345) % 2 ^ 31 % total)

/-- Modelled from the spec: the MeshSampler class is missing from src; the
record holds the inputs and targets drawn once at construction, plus the
synthesized residual names of collection_points. -/
structure MeshSampler where
  inputs : List (ℚ × ℚ)
  targets : List (String × List ℚ)
  residualNames : List String

/-- Modelled from the spec: MeshSampler construction is missing from src; it
fails iff a name appears in both solution and collection_points or a
solution name is absent from the dictionary; with no num_sample it takes the
entire mesh in order; collection_points names are recorded as residual
names, never looked up in the dataset. -/
def MeshSampler.build (m : Mesh) (numSample : Option ℕ) (seed : ℕ)
    (solution collectionPoints : List String) :
    Except ConfigurationError MeshSampler :=
  if solution.any (fun n => collectionPoints.contains n) then
    .error .overlappingNames
  else if solution.any (fun n => (m.solution.lookup n).isNone) then
    .error .unknownSolution
  else
    let g := m.grid
    let idxs := match numSample with
      | none => List.range g.length
      | some k => sampleIndices seed k g.length
    .ok { inputs := idxs.map (fun i => g.getD i (0, 0)),
          targets := solution.map
            (fun nm => (nm, idxs.map (fun i => (m.flatSol nm).getD i 0))),
          residualNames := collectionPoints }

/-- Modelled from the spec: the InitialCondition class is missing from src;
the record holds the sampled spatial coordinates, the (x, t0) inputs, and
per-name targets fixed at construction. -/
structure InitialCondition where
  xs : List ℚ
  inputs : List (ℚ × ℚ)
  targets : List (String × List ℚ)

/-- Modelled from the spec: InitialCondition construction is missing from
src; it samples spatial points at the initial time slice (all of them when
num_sample is omitted); with an initial_fun the targets come purely from the
function, otherwise from the dataset at time index 0, failing if a requested
name is absent there. -/
def InitialCondition.build (m : Mesh) (numSample : Option ℕ) (seed : ℕ)
    (initialFun : Option (ℚ → String → ℚ)) (solution : List String) :
    Except ConfigurationError InitialCondition :=
  if initialFun.isNone && solution.any (fun n => (m.solution.lookup n).isNone) then
    .error .unknownSolution
  else
    let idxs := match numSample with
      | none => List.range m.spatial.length
      | some k => sampleIndices seed k m.spatial.length
    let xs := idxs.map (fun i => m.spatial.getD i 0)
    let t0 := m.times.getD 0 0
    .ok { xs := xs,
          inputs := xs.map (fun x => (x, t0)),
          targets := solution.map (fun nm => (nm,
            match initialFun with
            | some f => xs.map (fun x => f x nm)
            | none => idxs.map
                (fun i => ((((m.solution.lookup nm).getD []).getD i []).getD 0 0)))) }

/-- Modelled from the spec: the PeriodicBoundaryCondition class is missing
from src; the record holds the sampled time coordinates, the lower- and
upper-boundary input batches, the derivative order and the supervised
names. -/
structure PeriodicBC where
  ts : List ℚ
  lower : List (ℚ × ℚ)
  upper : List (ℚ × ℚ)
  derivOrder : ℕ
  solNames : List String

/-- Modelled from the spec: PeriodicBoundaryCondition construction is missing
from src; it samples num_sample time points (all of them when omitted) and
pairs each with the two spatial domain extremes of the Mesh. -/
def PeriodicBC.build (m : Mesh) (numSample : Option ℕ) (seed : ℕ)
    (derivOrder : ℕ) (solution : List String) : PeriodicBC :=
  let idxs := match numSample with
    | none => List.range m.times.length
    | some k => sampleIndices seed k m.times.length
  let ts := idxs.map (fun i => m.times.getD i 0)
  { ts := ts,
    lower := ts.map (fun t => (m.lb.1, t)),
    upper := ts.map (fun t => (m.ub.1, t)),
    derivOrder := derivOrder,
    solNames := solution }

/-- Modelled from the spec: the residual terms the training step forms for a
PeriodicBoundaryCondition block: for every requested name and every
derivative order k in 0..derivative_order, the difference of the order-k
spatial derivatives at the lower and upper inputs, with implicit zero
target. The derivative engine is abstracted as a function from order, name
and input coordinate to a value (order 0 being the raw model output). -/
def pbcResidualTerms (D : ℕ → String → ℚ × ℚ → ℚ) (pbc : PeriodicBC) :
    List (String × ℕ × List ℚ × ℚ) :=
  pbc.solNames.flatMap (fun nm =>
    (List.range (pbc.derivOrder + 1)).map (fun k =>
      (nm, k, (pbc.lower.zip pbc.upper).map (fun p => D k nm p.1 - D k nm p.2), 0)))

/-- One sampler's contribution to a training step: inputs, direct targets,
residual names. -/
abbrev Batch := List (ℚ × ℚ) × List (String × List ℚ) × List String

/-- The fixed batch a MeshSampler contributes to every training step. -/
def samplerBatch (s : MeshSampler) : Batch :=
  (s.inputs, s.targets, s.residualNames)

/-- Modelled from the spec: the PINNDataModule class is missing from src; it
aggregates the samplers per split, here the train split. -/
structure PINNDataModule where
  trainSamplers : List MeshSampler

/-- The full concatenated train record of one step: every sampler
contributes its whole fixed batch. -/
def trainStep (dm : PINNDataModule) : List Batch :=
  dm.trainSamplers.map samplerBatch

/-- Modelled from the spec: the epoch loop over the train split; each epoch
emits the train record and passes the datamodule on to the next epoch. -/
def runEpochs : PINNDataModule → ℕ → PINNDataModule × List (List Batch)
  | dm, 0 => (dm, [])
  | dm, n + 1 =>
    let b := trainStep dm
    let r := runEpochs dm n
    (r.1, b :: r.2)

/-- The loss-function selector of PINNModule. -/
inductive LossFn where
  | mse
  | sse
  deriving DecidableEq

/-- Modelled from the spec: the per-term reduction of PINNModule's loss:
mse is the mean of squared errors of the term, sse the sum. -/
def termLoss : LossFn → List ℚ → ℚ
  | .mse, errs => (errs.map (fun e => e ^ 2)).sum / errs.length
  | .sse, errs => (errs.map (fun e => e ^ 2)).sum

/-- The error terms of one training step, split into direct (dataset
supervised) and residual (zero-target) terms. -/
structure LossBatch where
  direct : List (List ℚ)
  residual : List (List ℚ)

/-- Modelled from the spec: the scalar training loss: the selected reduction
applied per term, then summed across all terms, each weighted equally. -/
def totalLoss (fn : LossFn) (b : LossBatch) : ℚ :=
  ((b.direct ++ b.residual).map (termLoss fn)).sum

/-- Modelled from the spec: the Trainer epoch driver is missing from src;
fit runs epochs 1..max_epochs and inserts a validation pass after epoch e
exactly when e is a multiple of check_val_every_n_epoch. -/
structure Trainer where
  maxEpochs : ℕ
  checkValEveryNEpoch : ℕ

/-- An event of the trainer loop: a training epoch or a validation pass. -/
inductive TrainerEvent where
  | trainEpoch (e : ℕ)
  | valPass
  deriving DecidableEq

/-- Modelled from the spec: the event stream of Trainer.fit. -/
def fitEvents (tr : Trainer) : List TrainerEvent :=
  (List.range tr.maxEpochs).flatMap (fun e =>
    TrainerEvent.trainEpoch (e + 1) ::
      (if (e + 1) % tr.checkValEveryNEpoch == 0 then [TrainerEvent.valPass] else []))

/-- Modelled from the spec: trainer.validate invoked separately performs
exactly one validation pass. -/
def validateEvents : List TrainerEvent := [TrainerEvent.valPass]

/-- Whether a trainer event is a validation pass. -/
def TrainerEvent.isVal : TrainerEvent → Bool
  | .valPass => true
  | _ => false

/-- Modelled from the spec: the slice of the FCN network configuration that
consumes the Mesh bounds for input normalization. -/
structure FCNConfig where
  lb : ℚ × ℚ
  ub : ℚ × ℚ

/-- Modelled from the spec: FCN is constructed with lb = mesh.lb and
ub = mesh.ub, as in the tutorial call FCN(lb=mesh.lb, ub=mesh.ub). -/
def mkFCN (m : Mesh) : FCNConfig :=
  { lb := m.lb, ub := m.ub }

/-- The input normalization of FCN, mapping the domain box to [-1, 1]. -/
def FCNConfig.normalize (c : FCNConfig) (p : ℚ × ℚ) : ℚ × ℚ :=
  (2 * (p.1 - c.lb.1) / (c.ub.1 - c.lb.1) - 1,
   2 * (p.2 - c.lb.2) / (c.ub.2 - c.lb.2) - 1)

/-! ## Helper lemmas -/

theorem length_linspace (a b : ℚ) (n : ℕ) : (linspace a b n).length = n := by
  rw [linspace, List.length_map, List.length_range]

theorem length_gridPoints (sp ts : List ℚ) :
    (gridPoints sp ts).length = sp.length * ts.length := by
  induction sp with
  | nil => simp [gridPoints]
  | cons x sp ih =>
    simp only [gridPoints, List.flatMap_cons, List.length_append, List.length_map,
      List.length_cons] at *
    rw [ih]
    ring

theorem map_getD_range {α : Type} (l : List α) (d : α) :
    (List.range l.length).map (fun i => l.getD i d) = l := by
  induction l with
  | nil => simp
  | cons a l ih =>
    rw [List.length_cons, List.range_succ_eq_map, List.map_cons, List.map_map]
    have hc : ((fun i => (a :: l).getD i d) ∘ Nat.succ) = fun i => l.getD i d := by
      funext i
      simp [List.getD]
    rw [hc, ih]
    simp [List.getD]

theorem length_sampleIndices (seed n total : ℕ) :
    (sampleIndices seed n total).length = n := by
  simp [sampleIndices]

theorem min?_getD_spec (l : List ℚ) (h : l ≠ []) :
    (l.min?.getD 0) ∈ l ∧ ∀ x ∈ l, l.min?.getD 0 ≤ x := by
  cases hm : l.min? with
  | none => exact absurd (List.min?_eq_none_iff.mp hm) h
  | some a =>
    refine ⟨?_, ?_⟩
    · simpa using List.min?_mem (fun a b => min_choice a b) hm
    · intro x hx
      have := (List.le_min?_iff (fun a b c => le_min_iff) hm).mp (le_refl a)
      simpa using this x hx

theorem max?_getD_spec (l : List ℚ) (h : l ≠ []) :
    (l.max?.getD 0) ∈ l ∧ ∀ x ∈ l, x ≤ l.max?.getD 0 := by
  cases hm : l.max? with
  | none => exact absurd (List.max?_eq_none_iff.mp hm) h
  | some a =>
    refine ⟨?_, ?_⟩
    · simpa using List.max?_mem (fun a b => max_choice a b) hm
    · intro x hx
      have := (List.max?_le_iff (fun a b c => max_le_iff) hm).mp (le_refl a)
      simpa using this x hx

theorem lookup_graph {β : Type} (g : String → β) (sol : List String) (nm : String) :
    nm ∈ sol → (sol.map (fun n => (n, g n))).lookup nm = some (g nm) := by
  induction sol with
  | nil => intro h; simp at h
  | cons a sol ih =>
    intro h
    by_cases hna : nm = a
    · subst hna
      simp [List.lookup]
    · rcases List.mem_cons.mp h with h | h
      · exact absurd h hna
      · have hb : (nm == a) = false := beq_eq_false_iff_ne.mpr hna
        rw [List.map_cons]
        simp only [List.lookup, hb]
        exact ih h

/-- The spec-side characterization of the derived bound vectors: each
component of lb (resp. ub) is attained among the corresponding coordinates
of the point set and bounds every point from below (resp. above). -/
def boundsSpec (lb ub : ℚ × ℚ) (ps : List (ℚ × ℚ)) : Prop :=
  lb.1 ∈ ps.map Prod.fst ∧ lb.2 ∈ ps.map Prod.snd ∧
  ub.1 ∈ ps.map Prod.fst ∧ ub.2 ∈ ps.map Prod.snd ∧
  ∀ p ∈ ps, lb.1 ≤ p.1 ∧ lb.2 ≤ p.2 ∧ p.1 ≤ ub.1 ∧ p.2 ≤ ub.2

theorem derived_boundsSpec (ps : List (ℚ × ℚ)) (h : ps ≠ []) :
    boundsSpec (derivedLb ps) (derivedUb ps) ps := by
  have hf : ps.map Prod.fst ≠ [] := by
    intro hc
    exact h (List.map_eq_nil_iff.mp hc)
  have hs : ps.map Prod.snd ≠ [] := by
    intro hc
    exact h (List.map_eq_nil_iff.mp hc)
  obtain ⟨hmem1, hle1⟩ := min?_getD_spec (ps.map Prod.fst) hf
  obtain ⟨hmem2, hle2⟩ := min?_getD_spec (ps.map Prod.snd) hs
  obtain ⟨hmem3, hge1⟩ := max?_getD_spec (ps.map Prod.fst) hf
  obtain ⟨hmem4, hge2⟩ := max?_getD_spec (ps.map Prod.snd) hs
  refine ⟨hmem1, hmem2, hmem3, hmem4, ?_⟩
  intro p hp
  exact ⟨hle1 p.1 (List.mem_map_of_mem Prod.fst hp),
         hle2 p.2 (List.mem_map_of_mem Prod.snd hp),
         hge1 p.1 (List.mem_map_of_mem Prod.fst hp),
         hge2 p.2 (List.mem_map_of_mem Prod.snd hp)⟩

/-- C2: for every Mesh construction, and for every PointCloud construction
over all blocks combined, the derived lb and ub vectors are the
coordinate-wise minimum and maximum over the full generated space-time grid
(attained componentwise and bounding every grid point), unless explicit
lb/ub values are supplied at construction, in which case those supplied
values are used verbatim. -/
theorem mesh_bounds_are_coordinatewise_extremes :
    (∀ sd td data m, Mesh.build sd td data none none = .ok m →
      m.grid ≠ [] → boundsSpec m.lb m.ub m.grid) ∧
    (∀ sd td data l u m, Mesh.build sd td data (some l) (some u) = .ok m →
      m.lb = l ∧ m.ub = u) ∧
    (∀ blocks pc, PointCloud.build blocks none none = .ok pc →
      pcPoints blocks ≠ [] → boundsSpec pc.lb pc.ub (pcPoints blocks)) ∧
    (∀ blocks l u pc, PointCloud.build blocks (some l) (some u) = .ok pc →
      pc.lb = l ∧ pc.ub = u) := by
  refine ⟨?_, ?_, ?_, ?_⟩
  · intro sd td data m hm hne
    simp only [Mesh.build] at hm
    split at hm
    · rcases hm with ⟨⟩
      exact derived_boundsSpec _ hne
    · exact absurd hm (by simp)
  · intro sd td data l u m hm
    simp only [Mesh.build] at hm
    split at hm
    · rcases hm with ⟨⟩
      exact ⟨rfl, rfl⟩
    · exact absurd hm (by simp)
  · intro blocks pc hpc hne
    simp only [PointCloud.build] at hpc
    split at hpc
    · rcases hpc with ⟨⟩
      exact derived_boundsSpec _ hne
    · exact absurd hpc (by simp)
  · intro blocks l u pc hpc
    simp only [PointCloud.build] at hpc
    split at hpc
    · rcases hpc with ⟨⟩
      exact ⟨rfl, rfl⟩
    · exact absurd hpc (by simp)

/-- A small concrete mesh used to instantiate the bound theorems: two
spatial points, two time stamps, one solution array of shape 2 x 2. -/
def meshW : Mesh :=
  { spatial := Interval.spatialPoints ⟨0, 1, 2⟩,
    times := TimeDomain.timeStamps ⟨0, 1, 2⟩,
    solution := [("u", [[1, 2], [3, 4]])],
    lb := derivedLb (gridPoints (Interval.spatialPoints ⟨0, 1, 2⟩)
      (TimeDomain.timeStamps ⟨0, 1, 2⟩)),
    ub := derivedUb (gridPoints (Interval.spatialPoints ⟨0, 1, 2⟩)
      (TimeDomain.timeStamps ⟨0, 1, 2⟩)) }

theorem mesh_bounds_are_coordinatewise_extremes_witness :
    (Mesh.build ⟨0, 1, 2⟩ ⟨0, 1, 2⟩ [("u", [[1, 2], [3, 4]])] none none =
        .ok meshW ∧ meshW.grid ≠ []) ∧
    boundsSpec meshW.lb meshW.ub meshW.grid :=
  ⟨⟨rfl, by simp [meshW, Mesh.grid, gridPoints, Interval.spatialPoints,
      TimeDomain.timeStamps, linspace, List.range_succ]⟩,
   mesh_bounds_are_coordinatewise_extremes.1 ⟨0, 1, 2⟩ ⟨0, 1, 2⟩
     [("u", [[1, 2], [3, 4]])] meshW rfl
     (by simp [meshW, Mesh.grid, gridPoints, Interval.spatialPoints,
       TimeDomain.timeStamps, linspace, List.range_succ])⟩

/-- C9: explicitly supplied lb/ub are accepted with no validation against
the generated grid: Mesh.build succeeds for every supplied pair whenever the
shape invariant holds, the resulting mesh carries exactly the supplied
values, and the downstream FCN network configuration built from the mesh
receives exactly those values as its normalization bounds. -/
theorem mesh_bound_override_unvalidated :
    ∀ sd td data l u, shapeOk data sd.nPoints td.tPoints = true →
      ∃ m, Mesh.build sd td data (some l) (some u) = .ok m ∧
        m.lb = l ∧ m.ub = u ∧ mkFCN m = { lb := l, ub := u } := by
  intro sd td data l u hshape
  refine ⟨{ spatial := sd.spatialPoints, times := td.timeStamps,
            solution := data, lb := l, ub := u }, ?_, rfl, rfl, rfl⟩
  simp only [Mesh.build, hshape, if_true]
  rfl

theorem mesh_bound_override_unvalidated_witness :
    shapeOk [("u", [[1, 2], [3, 4]])] 2 2 = true ∧
    (5 : ℚ) ≠ (derivedUb (gridPoints (Interval.spatialPoints ⟨-5, 635 / 128, 2⟩)
      (TimeDomain.timeStamps ⟨0, 1, 2⟩))).1 ∧
    (∃ m, Mesh.build ⟨-5, 635 / 128, 2⟩ ⟨0, 1, 2⟩ [("u", [[1, 2], [3, 4]])]
        (some (-5, 0)) (some (5, 1)) = .ok m ∧
      m.lb = (-5, 0) ∧ m.ub = (5, 1) ∧ mkFCN m = { lb := (-5, 0), ub := (5, 1) }) :=
  ⟨by decide,
   by norm_num [derivedUb, gridPoints, Interval.spatialPoints,
     TimeDomain.timeStamps, linspace, List.range_succ, List.max?_cons, max_def],
   mesh_bound_override_unvalidated ⟨-5, 635 / 128, 2⟩ ⟨0, 1, 2⟩
     [("u", [[1, 2], [3, 4]])] (-5, 0) (5, 1) (by decide)⟩

theorem lookup_mem {β : Type} {data : List (String × β)} {nm : String} {arr : β}
    (h : data.lookup nm = some arr) : (nm, arr) ∈ data := by
  induction data with
  | nil => simp [List.lookup] at h
  | cons p data ih =>
    rcases p with ⟨k, v⟩
    by_cases hk : nm = k
    · subst hk
      simp only [List.lookup, beq_self_eq_true] at h
      rcases h with ⟨⟩
      exact List.mem_cons_self _ _
    · have hb : (nm == k) = false := beq_eq_false_iff_ne.mpr hk
      simp only [List.lookup, hb] at h
      exact List.mem_cons_of_mem _ (ih h)

theorem length_flatten_const {rows : List (List ℚ)} {t : ℕ}
    (h : ∀ r ∈ rows, r.length = t) : rows.flatten.length = rows.length * t := by
  induction rows with
  | nil => simp
  | cons r rows ih =>
    have hr : r.length = t := h r (List.mem_cons_self _ _)
    have ht : ∀ x ∈ rows, x.length = t := fun x hx => h x (List.mem_cons_of_mem _ hx)
    simp only [List.flatten_cons, List.length_append, List.length_cons, ih ht, hr]
    ring

/-- C3: every sampler draws exactly num_sample points when num_sample is
given, and the full mesh (full initial slice, full time axis) when it is
omitted: MeshSampler inputs, InitialCondition inputs, and the two
PeriodicBoundaryCondition batches all have the stated lengths. -/
theorem sampler_draw_counts :
    (∀ m k seed sol coll s, MeshSampler.build m (some k) seed sol coll = .ok s →
      s.inputs.length = k) ∧
    (∀ m seed sol coll s, MeshSampler.build m none seed sol coll = .ok s →
      s.inputs.length = m.grid.length) ∧
    (∀ m k seed f sol ic, InitialCondition.build m (some k) seed f sol = .ok ic →
      ic.inputs.length = k) ∧
    (∀ m seed f sol ic, InitialCondition.build m none seed f sol = .ok ic →
      ic.inputs.length = m.spatial.length) ∧
    (∀ m k seed d sol, (PeriodicBC.build m (some k) seed d sol).lower.length = k ∧
      (PeriodicBC.build m (some k) seed d sol).upper.length = k) ∧
    (∀ m seed d sol,
      (PeriodicBC.build m none seed d sol).lower.length = m.times.length ∧
      (PeriodicBC.build m none seed d sol).upper.length = m.times.length) := by
  refine ⟨?_, ?_, ?_, ?_, ?_, ?_⟩
  · intro m k seed sol coll s hs
    simp only [MeshSampler.build] at hs
    split at hs
    · cases hs
    · split at hs
      · cases hs
      · rcases hs with ⟨⟩
        simp [length_sampleIndices]
  · intro m seed sol coll s hs
    simp only [MeshSampler.build] at hs
    split at hs
    · cases hs
    · split at hs
      · cases hs
      · rcases hs with ⟨⟩
        simp
  · intro m k seed f sol ic hic
    simp only [InitialCondition.build] at hic
    split at hic
    · cases hic
    · rcases hic with ⟨⟩
      simp [length_sampleIndices]
  · intro m seed f sol ic hic
    simp only [InitialCondition.build] at hic
    split at hic
    · cases hic
    · rcases hic with ⟨⟩
      simp
  · intro m k seed d sol
    constructor <;> simp [PeriodicBC.build, length_sampleIndices]
  · intro m seed d sol
    constructor <;> simp [PeriodicBC.build]

/-- The MeshSampler drawn from meshW with num_sample 3, used to witness the
count theorem. -/
def msW3 : MeshSampler :=
  { inputs := (sampleIndices 0 3 meshW.grid.length).map
      (fun i => meshW.grid.getD i (0, 0)),
    targets := ["u"].map (fun nm =>
      (nm, (sampleIndices 0 3 meshW.grid.length).map
        (fun i => (meshW.flatSol nm).getD i 0))),
    residualNames := [] }

theorem sampler_draw_counts_witness :
    MeshSampler.build meshW (some 3) 0 ["u"] [] = .ok msW3 ∧
    msW3.inputs.length = 3 :=
  ⟨rfl, sampler_draw_counts.1 meshW 3 0 ["u"] [] msW3 rfl⟩

/-- C4: MeshSampler construction fails exactly when a name appears in both
the solution and collection_points sets or a solution name is absent from
the Mesh's solution dictionary; collection_points names are never looked up
in the dataset, so an absent collection name alone cannot cause failure. -/
theorem meshsampler_failure_iff :
    ∀ m numSample seed sol coll,
      (∃ s, MeshSampler.build m numSample seed sol coll = .ok s) ↔
      ((∀ n ∈ sol, n ∉ coll) ∧ ∀ n ∈ sol, (m.solution.lookup n).isSome) := by
  intro m ns seed sol coll
  constructor
  · rintro ⟨s, hs⟩
    simp only [MeshSampler.build] at hs
    split at hs
    · cases hs
    · split at hs
      · cases hs
      · rename_i hov hab
        constructor
        · intro n hn hmem
          exact hov (by simp only [List.any_eq_true]
                        exact ⟨n, hn, List.elem_iff.mpr hmem⟩)
        · intro n hn
          rcases ho : m.solution.lookup n with _ | arr
          · exact absurd (by simp only [List.any_eq_true]
                             exact ⟨n, hn, by simp [ho]⟩) hab
          · simp
  · rintro ⟨h1, h2⟩
    have hb1 : sol.any (fun n => coll.contains n) = false := by
      simp only [List.any_eq_false]
      intro n hn
      simp only [Bool.not_eq_true]
      exact Bool.not_eq_true _ ▸ fun hc => h1 n hn (List.elem_iff.mp hc)
    have hb2 : sol.any (fun n => (m.solution.lookup n).isNone) = false := by
      simp only [List.any_eq_false]
      intro n hn
      simp [Option.isNone_eq_false_iff, Option.isSome_iff_ne_none.mp (h2 n hn)]
    simp only [MeshSampler.build, hb1, hb2, Bool.false_eq_true, if_false]
    exact ⟨_, rfl⟩

theorem meshsampler_failure_iff_witness :
    ∃ s, MeshSampler.build meshW (some 3) 0 [] ["f"] = .ok s :=
  (meshsampler_failure_iff meshW (some 3) 0 [] ["f"]).mpr
    ⟨by simp, by simp⟩

/-- C1: building a Mesh from data satisfying the shape invariant and
sampling the entire grid with a MeshSampler constructed without num_sample
returns the full space-time grid as inputs, of size
num_spatial_points * num_time_points, and for every requested solution name
the targets are exactly the flattened original solution array, in the
original order. -/
theorem meshsampler_full_grid_roundtrip :
    ∀ sd td data lbO ubO m seed sol s,
      Mesh.build sd td data lbO ubO = .ok m →
      MeshSampler.build m none seed sol [] = .ok s →
      s.inputs = m.grid ∧
      s.inputs.length = sd.nPoints * td.tPoints ∧
      ∀ nm ∈ sol, s.targets.lookup nm = some ((data.lookup nm).getD []).flatten := by
  intro sd td data lbO ubO m seed sol s hm hs
  simp only [Mesh.build] at hm
  split at hm
  · rename_i hshape
    rcases hm with ⟨⟩
    simp only [MeshSampler.build] at hs
    split at hs
    · cases hs
    · split at hs
      · cases hs
      · rename_i hov hab
        rcases hs with ⟨⟩
        refine ⟨map_getD_range _ _, ?_, ?_⟩
        · rw [map_getD_range _ _]
          simp [Mesh.grid, length_gridPoints, Interval.spatialPoints,
            TimeDomain.timeStamps, length_linspace]
        · intro nm hnm
          rw [lookup_graph _ sol nm hnm]
          have habs : ∃ arr, data.lookup nm = some arr := by
            rcases ho : data.lookup nm with _ | arr
            · exact absurd (by simp only [List.any_eq_true]
                               exact ⟨nm, hnm, by simp [ho]⟩) hab
            · exact ⟨arr, rfl⟩
          rcases habs with ⟨arr, harr⟩
          have hmem := lookup_mem harr
          have hshape2 := (List.all_eq_true.mp hshape) _ hmem
          rw [Bool.and_eq_true] at hshape2
          have hrows : arr.length = sd.nPoints := by
            simpa using hshape2.1
          have hcols : ∀ r ∈ arr, r.length = td.tPoints := by
            intro r hr
            have := (List.all_eq_true.mp hshape2.2) _ hr
            simpa using this
          have hflat : (Mesh.flatSol
              { spatial := sd.spatialPoints, times := td.timeStamps,
                solution := data,
                lb := lbO.getD (derivedLb (gridPoints sd.spatialPoints td.timeStamps)),
                ub := ubO.getD (derivedUb (gridPoints sd.spatialPoints td.timeStamps)) }
              nm) = arr.flatten := by
            simp [Mesh.flatSol, harr]
          have hlen : (gridPoints sd.spatialPoints td.timeStamps).length =
              arr.flatten.length := by
            rw [length_gridPoints, length_flatten_const hcols, hrows,
              Interval.spatialPoints, TimeDomain.timeStamps,
              length_linspace, length_linspace]
          simp only [Mesh.grid] at *
          rw [hflat, hlen, map_getD_range _ _]
          simp [Mesh.flatSol, harr]
  · cases hm

/-- The full-grid MeshSampler over meshW, used to witness the round-trip
theorem. -/
def msFullW : MeshSampler :=
  { inputs := (List.range meshW.grid.length).map (fun i => meshW.grid.getD i (0, 0)),
    targets := ["u"].map (fun nm =>
      (nm, (List.range meshW.grid.length).map
        (fun i => (meshW.flatSol nm).getD i 0))),
    residualNames := [] }

theorem meshsampler_full_grid_roundtrip_witness :
    (Mesh.build ⟨0, 1, 2⟩ ⟨0, 1, 2⟩ [("u", [[1, 2], [3, 4]])] none none = .ok meshW ∧
      MeshSampler.build meshW none 0 ["u"] [] = .ok msFullW) ∧
    (msFullW.inputs = meshW.grid ∧
      msFullW.inputs.length = 2 * 2 ∧
      ∀ nm ∈ ["u"], msFullW.targets.lookup nm =
        some (([("u", [[1, 2], [3, 4]])].lookup nm).getD []).flatten) :=
  ⟨⟨rfl, rfl⟩,
   meshsampler_full_grid_roundtrip ⟨0, 1, 2⟩ ⟨0, 1, 2⟩ [("u", [[1, 2], [3, 4]])]
     none none meshW 0 ["u"] msFullW rfl rfl⟩

/-- C5: for an InitialCondition constructed with an initial_fun, every
target equals initial_fun applied to the sampled spatial coordinate at the
requested name, and the construction reads nothing from the Mesh's stored
solution dataset: replacing the dataset by any other yields the identical
sampler. -/
theorem initial_fun_targets_pure :
    ∀ m numSample seed f sol ic,
      InitialCondition.build m numSample seed (some f) sol = .ok ic →
      (∀ nm ∈ sol, ic.targets.lookup nm = some (ic.xs.map (fun x => f x nm))) ∧
      (∀ data2, InitialCondition.build
        { spatial := m.spatial, times := m.times, solution := data2,
          lb := m.lb, ub := m.ub } numSample seed (some f) sol = .ok ic) := by
  intro m numSample seed f sol ic hic
  simp only [InitialCondition.build, Option.isNone_some, Bool.false_and,
    Bool.false_eq_true, if_false] at hic
  rcases hic with ⟨⟩
  constructor
  · intro nm hnm
    exact lookup_graph _ sol nm hnm
  · intro data2
    simp only [InitialCondition.build, Option.isNone_some, Bool.false_and,
      Bool.false_eq_true, if_false]

/-- The initial function used to witness the InitialCondition theorem. -/
def fW : ℚ → String → ℚ := fun x _ => x + 1

/-- The InitialCondition drawn from meshW with initial function fW, used to
witness the purity theorem. -/
def icW : InitialCondition :=
  { xs := (sampleIndices 0 2 meshW.spatial.length).map (fun i => meshW.spatial.getD i 0),
    inputs := ((sampleIndices 0 2 meshW.spatial.length).map
      (fun i => meshW.spatial.getD i 0)).map (fun x => (x, meshW.times.getD 0 0)),
    targets := ["u"].map (fun nm =>
      (nm, ((sampleIndices 0 2 meshW.spatial.length).map
        (fun i => meshW.spatial.getD i 0)).map (fun x => fW x nm))) }

theorem initial_fun_targets_pure_witness :
    InitialCondition.build meshW (some 2) 0 (some fW) ["u"] = .ok icW ∧
    ((∀ nm ∈ ["u"], icW.targets.lookup nm = some (icW.xs.map (fun x => fW x nm))) ∧
      ∀ data2, InitialCondition.build
        { spatial := meshW.spatial, times := meshW.times, solution := data2,
          lb := meshW.lb, ub := meshW.ub } (some 2) 0 (some fW) ["u"] = .ok icW) :=
  ⟨rfl, initial_fun_targets_pure meshW (some 2) 0 fW ["u"] icW rfl⟩

/-- C6: every sampled time of a PeriodicBoundaryCondition yields exactly the
two model inputs (lb_x, t) and (ub_x, t), the two batches sharing the same
time coordinates; and for every derivative order k up to derivative_order
and every requested name, the training step forms the difference of the
order-k spatial derivatives at the lower and upper inputs as a residual term
whose target is zero (order 0 being the raw value). -/
theorem pbc_boundary_pairs_and_residuals :
    ∀ m numSample seed d sol (D : ℕ → String → ℚ × ℚ → ℚ),
      (PeriodicBC.build m numSample seed d sol).lower =
        (PeriodicBC.build m numSample seed d sol).ts.map (fun t => (m.lb.1, t)) ∧
      (PeriodicBC.build m numSample seed d sol).upper =
        (PeriodicBC.build m numSample seed d sol).ts.map (fun t => (m.ub.1, t)) ∧
      (PeriodicBC.build m numSample seed d sol).lower.map Prod.snd =
        (PeriodicBC.build m numSample seed d sol).ts ∧
      (PeriodicBC.build m numSample seed d sol).upper.map Prod.snd =
        (PeriodicBC.build m numSample seed d sol).ts ∧
      (∀ nm ∈ sol, ∀ k, k ≤ d →
        (nm, k, (PeriodicBC.build m numSample seed d sol).ts.map
            (fun t => D k nm (m.lb.1, t) - D k nm (m.ub.1, t)), (0 : ℚ)) ∈
          pbcResidualTerms D (PeriodicBC.build m numSample seed d sol)) ∧
      (∀ term ∈ pbcResidualTerms D (PeriodicBC.build m numSample seed d sol),
        term.2.2.2 = 0) := by
  intro m numSample seed d sol D
  refine ⟨rfl, rfl, ?_, ?_, ?_, ?_⟩
  · simp [PeriodicBC.build, List.map_map]
  · simp [PeriodicBC.build, List.map_map]
  · intro nm hnm k hk
    simp only [pbcResidualTerms, List.mem_flatMap]
    refine ⟨nm, hnm, ?_⟩
    simp only [List.mem_map]
    refine ⟨k, List.mem_range.mpr (Nat.lt_succ_of_le hk), ?_⟩
    have hz : (PeriodicBC.build m numSample seed d sol).lower.zip
        (PeriodicBC.build m numSample seed d sol).upper =
        (PeriodicBC.build m numSample seed d sol).ts.map
          (fun t => ((m.lb.1, t), (m.ub.1, t))) := by
      simp [PeriodicBC.build, List.zip_map']
    rw [hz, List.map_map]
    rfl
  · intro term hterm
    simp only [pbcResidualTerms, List.mem_flatMap, List.mem_map] at hterm
    rcases hterm with ⟨nm, _, k, _, rfl⟩
    rfl

theorem pbc_boundary_pairs_and_residuals_witness :
    ("u" ∈ ["u"] ∧ 1 ≤ 1) ∧
    ("u", 1, (PeriodicBC.build meshW (some 3) 0 1 ["u"]).ts.map
        (fun t => (fun _ _ p => p.1 + p.2 : ℕ → String → ℚ × ℚ → ℚ) 1 "u" (meshW.lb.1, t) -
          (fun _ _ p => p.1 + p.2 : ℕ → String → ℚ × ℚ → ℚ) 1 "u" (meshW.ub.1, t)), (0 : ℚ)) ∈
      pbcResidualTerms (fun _ _ p => p.1 + p.2) (PeriodicBC.build meshW (some 3) 0 1 ["u"]) :=
  ⟨⟨by simp, le_refl 1⟩,
   (pbc_boundary_pairs_and_residuals meshW (some 3) 0 1 ["u"]
     (fun _ _ p => p.1 + p.2)).2.2.2.2.1 "u" (by simp) 1 (le_refl 1)⟩

/-- C7: the sampled tensors are fixed at construction: running any number of
epochs over a PINNDataModule leaves the datamodule unchanged and yields the
identical full concatenated train record every epoch, with no resampling or
reshuffling. -/
theorem static_sampling_invariant :
    ∀ dm n, (runEpochs dm n).1 = dm ∧
      (runEpochs dm n).2 = List.replicate n (trainStep dm) := by
  intro dm n
  induction n with
  | zero => exact ⟨rfl, rfl⟩
  | succ n ih =>
    refine ⟨ih.1, ?_⟩
    simp [runEpochs, List.replicate_succ, ih.2]

/-- C8: on a single-term batch with no residual terms, the sse loss equals
the mse loss multiplied by the number of points of the term. -/
theorem sse_eq_mse_mul_count :
    ∀ b t, b.direct = [t] → b.residual = [] →
      totalLoss .sse b = totalLoss .mse b * t.length := by
  intro b t h1 h2
  simp only [totalLoss, h1, h2, List.append_nil, List.map_cons, List.map_nil,
    List.sum_cons, List.sum_nil, add_zero, termLoss]
  by_cases ht : t = []
  · subst ht
    simp
  · have hl : (t.length : ℚ) ≠ 0 := by
      simpa using fun hl => ht (List.length_eq_zero.mp hl)
    rw [div_mul_cancel₀ _ hl]

/-- The single-term loss batch used to witness the sse/mse relation. -/
def lbW : LossBatch := { direct := [[1, 2]], residual := [] }

theorem sse_eq_mse_mul_count_witness :
    (lbW.direct = [[1, 2]] ∧ lbW.residual = []) ∧
    totalLoss .sse lbW = totalLoss .mse lbW * (([(1 : ℚ), 2] : List ℚ).length : ℚ) :=
  ⟨⟨rfl, rfl⟩, sse_eq_mse_mul_count lbW [1, 2] rfl rfl⟩

/-- C10: when check_val_every_n_epoch exceeds max_epochs, the epoch loop of
Trainer.fit performs no validation pass at all; a separately invoked
trainer.validate then contributes the only validation pass of the run. -/
theorem no_validation_pass_when_check_exceeds_max :
    ∀ tr : Trainer, tr.maxEpochs < tr.checkValEveryNEpoch →
      (fitEvents tr).filter TrainerEvent.isVal = [] ∧
      ((fitEvents tr ++ validateEvents).filter TrainerEvent.isVal).length = 1 := by
  intro tr h
  have hmod : ∀ e ∈ List.range tr.maxEpochs,
      ((e + 1) % tr.checkValEveryNEpoch == 0) = false := by
    intro e he
    have helt : e + 1 < tr.checkValEveryNEpoch :=
      Nat.lt_of_le_of_lt (Nat.succ_le_of_lt (List.mem_range.mp he)) h
    simp [Nat.mod_eq_of_lt helt]
  have hmain : ∀ l : List ℕ, (∀ e ∈ l, ((e + 1) % tr.checkValEveryNEpoch == 0) = false) →
      (l.flatMap (fun e => TrainerEvent.trainEpoch (e + 1) ::
        (if (e + 1) % tr.checkValEveryNEpoch == 0 then [TrainerEvent.valPass] else []))).filter
          TrainerEvent.isVal = [] := by
    intro l
    induction l with
    | nil => intro _; rfl
    | cons e l ih =>
      intro hl
      have he := hl e (List.mem_cons_self _ _)
      have hrest := fun x hx => hl x (List.mem_cons_of_mem _ hx)
      simp only [List.flatMap_cons, List.filter_append, he, Bool.false_eq_true, if_false,
        ih hrest, List.append_nil]
      rfl
  have h1 : (fitEvents tr).filter TrainerEvent.isVal = [] :=
    hmain (List.range tr.maxEpochs) hmod
  refine ⟨h1, ?_⟩
  rw [List.filter_append, h1]
  rfl

theorem no_validation_pass_when_check_exceeds_max_witness :
    (5 : ℕ) < 6 ∧
    ((fitEvents ⟨5, 6⟩).filter TrainerEvent.isVal = [] ∧
      ((fitEvents ⟨5, 6⟩ ++ validateEvents).filter TrainerEvent.isVal).length = 1) :=
  ⟨by decide, no_validation_pass_when_check_exceeds_max ⟨5, 6⟩ (by decide)⟩

end PinnsTf2
